import Mathlib

/-! # The `race` and `echo` character-device drivers

A shallow embedding of `src/race/race.c` (the unit registry behind the
ATTACH / DETACH / QUERY / LIST ioctls and the module event handler) and of the
buffer bookkeeping of `src/echo/echo-4.0.c`, followed by the properties proved
about them.

Conventions of the embedding

* A C `int` is an `Int`; every assignment to an `int` whose right-hand side can
  leave the 32-bit range goes through `wrapInt` (two's-complement wrap-around,
  as under `-fwrapv`; ISO C leaves the overflow of a signed addition undefined).
* `race_list` is the list of the `unit` fields of its nodes, head first.  A
  pointer to a node is the position of the node in the list, `NULL` is `none`.
* `malloc(..., M_WAITOK)` cannot fail, so `race_new` has no error path.
* `uprintf` output is recorded as a list of console events.
-/

namespace Race

/-! ## Machine integers and errno values -/

/-- Largest value of a C `int`. -/
def INT_MAX : Int := 2147483647

/-- Smallest value of a C `int`. -/
def INT_MIN : Int := -2147483648

/-- Value stored in a C `int` when the mathematical result is `x`
(reduction modulo `2^32` into `INT_MIN .. INT_MAX`). -/
def wrapInt (x : Int) : Int := (x + 2147483648) % 4294967296 - 2147483648

/-- Errno `ENOENT` of `sys/errno.h`. -/
def ENOENT : Int := 2

/-- Errno `EBUSY` of `sys/errno.h`. -/
def EBUSY : Int := 16

/-- Errno `ENOTTY` of `sys/errno.h`. -/
def ENOTTY : Int := 25

/-- Errno `EOPNOTSUPP` of `sys/errno.h`. -/
def EOPNOTSUPP : Int := 45

/-! ## The registry -/

/-- The contents of `race_list`: the `unit` of every `race_softc`, head first. -/
abbrev Registry := List Int

/-- The four command codes of `race_ioctl.h`.  That header is not part of the
sources at hand, so the codes are a parameter; the labels of one `switch` are
pairwise distinct, which is all that is known about them. -/
structure RaceIoc where
  RACE_IOC_ATTACH : Nat
  RACE_IOC_DETACH : Nat
  RACE_IOC_QUERY : Nat
  RACE_IOC_LIST : Nat
  distinct : [RACE_IOC_ATTACH, RACE_IOC_DETACH, RACE_IOC_QUERY, RACE_IOC_LIST].Nodup

/-- The encodings `_IOR('R', 0, int)`, `_IOW('R', 1, int)`, `_IOW('R', 2, int)`
and `_IO('R', 3)` under `sys/ioccom.h`; a concrete instance of the parameter. -/
def raceIoc : RaceIoc where
  RACE_IOC_ATTACH := 0x40045200
  RACE_IOC_DETACH := 0x80045201
  RACE_IOC_QUERY := 0x80045202
  RACE_IOC_LIST := 0x20005203
  distinct := by decide

/-- The `LIST_FOREACH` loop of `race_new` (lines 81-84): the running value of
`max` after visiting the nodes of the list in order. -/
def race_new_max (max : Int) : Registry → Int
  | [] => max
  | u :: rest => race_new_max (if u > max then u else max) rest

/-- First half of `race_new` (lines 79-85): `max = -1`, the scan, and
`unit = max + 1` computed in `int`. -/
def race_new_unit (l : Registry) : Int :=
  wrapInt (race_new_max (-1) l + 1)

/-- Second half of `race_new` (lines 87-93): allocate a node, store `unit` in
it and `LIST_INSERT_HEAD` it. -/
def race_new_insert (unit : Int) (l : Registry) : Registry :=
  unit :: l

/-- Function `race_new`: returns the `unit` of the new node (the node itself is
the new head) and the updated list. -/
def race_new (l : Registry) : Int × Registry :=
  let unit := race_new_unit l
  (unit, race_new_insert unit l)

/-- Function `race_find`: position of the first node whose `unit` equals the
argument, `none` (the `NULL` left by an exhausted `LIST_FOREACH`) otherwise. -/
def race_find (unit : Int) : Registry → Option Nat
  | [] => none
  | u :: rest => if u = unit then some 0 else (race_find unit rest).map (· + 1)

/-- Function `race_destroy`: `LIST_REMOVE` of the node at position `sc`. -/
def race_destroy (sc : Nat) (l : Registry) : Registry :=
  l.eraseIdx sc

/-- One `uprintf` call of the LIST command. -/
inductive Uprintf where
  /-- The line `" UNIT\n"`. -/
  | header : Uprintf
  /-- The line `" %d\n"` for one unit. -/
  | unit (u : Int) : Uprintf
  deriving DecidableEq, Repr

/-- Everything a call of `race_ioctl` leaves behind: the returned error, the
`int` behind the `data` pointer, `race_list`, and the console output. -/
structure IoctlResult where
  error : Int
  data : Int
  list : Registry
  out : List Uprintf
  deriving DecidableEq, Repr

/-- Function `race_ioctl`.  `data` is the `int` behind the payload pointer on
entry, `l` is `race_list` on entry. -/
def race_ioctl (c : RaceIoc) (cmd : Nat) (data : Int) (l : Registry) : IoctlResult :=
  if cmd = c.RACE_IOC_ATTACH then
    let r := race_new l
    { error := 0, data := r.1, list := r.2, out := [] }
  else if cmd = c.RACE_IOC_DETACH then
    match race_find data l with
    | none => { error := ENOENT, data := data, list := l, out := [] }
    | some sc => { error := 0, data := data, list := race_destroy sc l, out := [] }
  else if cmd = c.RACE_IOC_QUERY then
    match race_find data l with
    | none => { error := ENOENT, data := data, list := l, out := [] }
    | some _ => { error := 0, data := data, list := l, out := [] }
  else if cmd = c.RACE_IOC_LIST then
    { error := 0, data := data, list := l, out := Uprintf.header :: l.map Uprintf.unit }
  else
    { error := ENOTTY, data := data, list := l, out := [] }

/-! ## Module events -/

/-- Event `MOD_LOAD` of `sys/module.h`. -/
def MOD_LOAD : Int := 0

/-- Event `MOD_UNLOAD` of `sys/module.h`. -/
def MOD_UNLOAD : Int := 1

/-- Event `MOD_SHUTDOWN` of `sys/module.h`. -/
def MOD_SHUTDOWN : Int := 2

/-- Event `MOD_QUIESCE` of `sys/module.h`. -/
def MOD_QUIESCE : Int := 3

/-- The file-scope state of the driver: whether `race_dev` names a live device
node, and `race_list`. -/
structure RaceState where
  race_dev : Bool
  race_list : Registry
  deriving DecidableEq, Repr

/-- Function `race_modevent`: returned error and state afterwards (the two
informational `uprintf` lines are left out). -/
def race_modevent (event : Int) (st : RaceState) : Int × RaceState :=
  if event = MOD_LOAD then
    (0, { st with race_dev := true })
  else if event = MOD_UNLOAD then
    (0, { st with race_dev := false })
  else if event = MOD_QUIESCE then
    (if st.race_list ≠ [] then EBUSY else 0, st)
  else
    (EOPNOTSUPP, st)

/-! ## Command sequences -/

/-- One ioctl request: command code and the `int` behind the payload pointer. -/
structure Request where
  cmd : Nat
  data : Int
  deriving DecidableEq, Repr

/-- The command is one of ATTACH, DETACH, QUERY, LIST. -/
def Recognised (c : RaceIoc) (cmd : Nat) : Prop :=
  cmd = c.RACE_IOC_ATTACH ∨ cmd = c.RACE_IOC_DETACH ∨
    cmd = c.RACE_IOC_QUERY ∨ cmd = c.RACE_IOC_LIST

instance (c : RaceIoc) (cmd : Nat) : Decidable (Recognised c cmd) := by
  unfold Recognised; infer_instance

/-- Registry after serving the requests one after another. -/
def exec (c : RaceIoc) : List Request → Registry → Registry
  | [], l => l
  | r :: rs, l => exec c rs (race_ioctl c r.cmd r.data l).list

/-- Number of ATTACH requests in a sequence. -/
def attachCount (c : RaceIoc) (rs : List Request) : Nat :=
  rs.countP (fun r => decide (r.cmd = c.RACE_IOC_ATTACH))

/-- A registry state the driver gets into from the freshly loaded (empty)
list by some sequence of ATTACH, DETACH, QUERY and LIST requests. -/
def Reachable (c : RaceIoc) (l : Registry) : Prop :=
  ∃ rs : List Request, (∀ r ∈ rs, Recognised c r.cmd) ∧ exec c rs [] = l

/-- Ids returned by `n` ATTACH requests served back to back, oldest first,
and the registry afterwards. -/
def attachMany (c : RaceIoc) : Nat → Registry → List Int × Registry
  | 0, l => ([], l)
  | n + 1, l =>
    let r := race_ioctl c c.RACE_IOC_ATTACH 0 l
    let rest := attachMany c n r.list
    (r.data :: rest.1, rest.2)

/-! ## Overlapping attach calls

`race_new` takes no lock: between its scan (lines 79-85) and its insert
(lines 87-93) sits a `malloc(..., M_WAITOK)` that may sleep, so another caller
can run in between.  The model below lets callers of the ATTACH command take
turns at exactly that point; each of the two halves runs undisturbed. -/

/-- How far one caller of ATTACH has got. -/
inductive AttachPc where
  /-- The call has not begun. -/
  | entry : AttachPc
  /-- The scan is done and `unit` holds `max + 1`; nothing is inserted yet. -/
  | scanned (unit : Int) : AttachPc
  /-- The node is inserted and `unit` has been handed back to the caller. -/
  | returned (unit : Int) : AttachPc
  deriving DecidableEq, Repr

/-- The shared list together with the progress of every caller. -/
structure Overlap where
  list : Registry
  callers : List AttachPc
  deriving DecidableEq, Repr

/-- Caller `i` runs the next half of its `race_new`. -/
def stepCaller (i : Nat) (st : Overlap) : Overlap :=
  match st.callers[i]? with
  | some AttachPc.entry =>
    { list := st.list
      callers := st.callers.set i (AttachPc.scanned (race_new_unit st.list)) }
  | some (AttachPc.scanned unit) =>
    { list := race_new_insert unit st.list
      callers := st.callers.set i (AttachPc.returned unit) }
  | _ => st

/-- The callers named by the schedule take their turns in that order. -/
def runSchedule : List Nat → Overlap → Overlap
  | [], st => st
  | i :: rest, st => runSchedule rest (stepCaller i st)

/-- The id a finished caller got back. -/
def AttachPc.result : AttachPc → Option Int
  | AttachPc.returned unit => some unit
  | _ => none

/-- Ids handed back so far, in caller order. -/
def returnedIds (st : Overlap) : List Int :=
  st.callers.filterMap AttachPc.result

end Race

namespace Echo

/-! ## The echo buffer -/

/-- Errno `EINVAL` of `sys/errno.h`. -/
def EINVAL : Int := 22

/-- Errno `ENOTTY` of `sys/errno.h`. -/
def ENOTTY : Int := 25

/-- Command `ECHO_CLEAR_BUFFER`, that is `_IO('E', 1)` under `sys/ioccom.h`. -/
def ECHO_CLEAR_BUFFER : Nat := 0x20004501

/-- Command `ECHO_SET_BUFFER_SIZE`, that is `_IOW('E', 2, int)` under
`sys/ioccom.h`. -/
def ECHO_SET_BUFFER_SIZE : Nat := 0x80044502

/-- Value of a 64-bit signed integer (`off_t`, `ssize_t`, `long long`) when the
mathematical result is `x`. -/
def wrapLong (x : Int) : Int :=
  (x + 9223372036854775808) % 18446744073709551616 - 9223372036854775808

/-- The bookkeeping fields of `echo_t`; the bytes behind `buffer` are not
modelled. -/
structure echo_t where
  buffer_size : Int
  length : Int
  deriving DecidableEq, Repr

/-- The two fields of `struct uio` the driver reads.  `uio_resid` is the number
of bytes still to transfer, which the kernel hands to a driver as a
non-negative `ssize_t`; `uio_offset` is any `off_t` (a character device also
receives negative offsets). -/
structure Uio where
  uio_resid : Int
  uio_offset : Int
  resid_range : 0 ≤ uio_resid ∧ uio_resid ≤ 9223372036854775807
  offset_range : -9223372036854775808 ≤ uio_offset ∧ uio_offset ≤ 9223372036854775807

/-- Function `echo_write`.  `uiomove_error` is what `uiomove` returns for this
transfer.  Yields the error returned and the bookkeeping afterwards. -/
def echo_write (uio : Uio) (uiomove_error : Int) (e : echo_t) : Int × echo_t :=
  let room := wrapLong (Race.wrapInt (e.buffer_size - 1) - uio.uio_offset)
  let cap := if room > 0 then room else 0
  let amount := Race.wrapInt (if uio.uio_resid < cap then uio.uio_resid else cap)
  if amount = 0 then
    (0, e)
  else
    let offset := uio.uio_offset
    if uiomove_error ≠ 0 then
      (uiomove_error, e)
    else
      (0, { e with length := Race.wrapInt (wrapLong (offset + amount)) })

/-- Function `echo_set_buffer_size`. -/
def echo_set_buffer_size (size : Int) (e : echo_t) : Int × echo_t :=
  if e.buffer_size = size then
    (0, e)
  else if size ≥ 128 ∧ size ≤ 512 then
    let e1 := { e with buffer_size := size }
    if e1.length ≥ size then
      (0, { e1 with length := Race.wrapInt (size - 1) })
    else
      (0, e1)
  else
    (EINVAL, e)

/-- Function `echo_ioctl`; `data` is the `int` behind the payload pointer. -/
def echo_ioctl (cmd : Nat) (data : Int) (e : echo_t) : Int × echo_t :=
  if cmd = ECHO_CLEAR_BUFFER then
    (0, { e with length := 0 })
  else if cmd = ECHO_SET_BUFFER_SIZE then
    echo_set_buffer_size data e
  else
    (ENOTTY, e)

/-- The bounds the driver relies on: `128 <= buffer_size <= 512` and
`0 <= length < buffer_size`. -/
def EchoInv (e : echo_t) : Prop :=
  128 ≤ e.buffer_size ∧ e.buffer_size ≤ 512 ∧ 0 ≤ e.length ∧ e.length < e.buffer_size

instance (e : echo_t) : Decidable (EchoInv e) := by
  unfold EchoInv; infer_instance

end Echo

/-! # Properties of the `race` driver -/

namespace Race

/-! ## Auxiliary facts about the scan and the lookup -/

theorem wrapInt_eq_self (x : Int) (h1 : -2147483648 ≤ x) (h2 : x ≤ 2147483647) :
    wrapInt x = x := by
  unfold wrapInt; omega

theorem race_new_max_ge (l : Registry) : ∀ m : Int, m ≤ race_new_max m l := by
  induction l with
  | nil => intro m; simp [race_new_max]
  | cons u rest ih =>
    intro m
    simp only [race_new_max]
    by_cases hc : u > m
    · simp only [hc, if_true]; have := ih u; omega
    · simp only [hc, if_false]; have := ih m; omega

theorem race_new_max_ub (l : Registry) : ∀ m : Int, ∀ u ∈ l, u ≤ race_new_max m l := by
  induction l with
  | nil => intro m u hu; simp at hu
  | cons v rest ih =>
    intro m u hu
    simp only [race_new_max]
    rcases List.mem_cons.mp hu with rfl | hmem
    · by_cases hc : u > m
      · simp only [hc, if_true]; have := race_new_max_ge rest u; omega
      · simp only [hc, if_false]; have := race_new_max_ge rest m; omega
    · exact ih _ u hmem

theorem race_new_max_mem (l : Registry) :
    ∀ m : Int, race_new_max m l = m ∨ race_new_max m l ∈ l := by
  induction l with
  | nil => intro m; simp [race_new_max]
  | cons v rest ih =>
    intro m
    simp only [race_new_max]
    rcases ih (if v > m then v else m) with h | h
    · rw [h]
      split
      · right; simp
      · left; rfl
    · right; exact List.mem_cons_of_mem _ h

/-- The scan yields the same maximum for two lists with the same members. -/
theorem race_new_max_congr (s t : Registry) (m : Int) (h : ∀ u, u ∈ s ↔ u ∈ t) :
    race_new_max m s = race_new_max m t := by
  apply le_antisymm
  · rcases race_new_max_mem s m with e | e
    · rw [e]; exact race_new_max_ge t m
    · exact race_new_max_ub t m _ ((h _).mp e)
  · rcases race_new_max_mem t m with e | e
    · rw [e]; exact race_new_max_ge s m
    · exact race_new_max_ub s m _ ((h _).mpr e)

theorem race_find_none (unit : Int) (l : Registry) :
    race_find unit l = none ↔ unit ∉ l := by
  induction l with
  | nil => simp [race_find]
  | cons u rest ih =>
    simp only [race_find, List.mem_cons, not_or]
    split
    · rename_i h; simp [h]
    · rename_i h
      rw [Option.map_eq_none', ih]
      constructor
      · intro h2; exact ⟨fun e => h e.symm, h2⟩
      · intro h2; exact h2.2

/-- What `race_find` followed by `race_destroy` does to the list: the first
node carrying the id is unlinked, the nodes before and after it stay. -/
theorem race_find_some (unit : Int) (l : Registry) (sc : Nat)
    (h : race_find unit l = some sc) :
    ∃ l1 l2, l = l1 ++ unit :: l2 ∧ unit ∉ l1 ∧ race_destroy sc l = l1 ++ l2 := by
  induction l generalizing sc with
  | nil => simp [race_find] at h
  | cons u rest ih =>
    simp only [race_find] at h
    split at h
    · rename_i hu
      cases h
      exact ⟨[], rest, by simp [hu], by simp, by simp [race_destroy]⟩
    · rename_i hu
      rcases hfind : race_find unit rest with _ | k
      · simp [hfind] at h
      · simp [hfind] at h
        subst h
        obtain ⟨l1, l2, e1, e2, e3⟩ := ih k hfind
        refine ⟨u :: l1, l2, by simp [e1], ?_, ?_⟩
        · simp only [List.mem_cons, not_or]
          exact ⟨fun e => hu e.symm, e2⟩
        · simp only [race_destroy, List.eraseIdx_cons_succ, List.cons_append] at e3 ⊢
          rw [e3]

/-! ## The dispatcher, one command at a time -/

theorem codes_ne (c : RaceIoc) :
    c.RACE_IOC_DETACH ≠ c.RACE_IOC_ATTACH ∧ c.RACE_IOC_QUERY ≠ c.RACE_IOC_ATTACH ∧
    c.RACE_IOC_LIST ≠ c.RACE_IOC_ATTACH ∧ c.RACE_IOC_QUERY ≠ c.RACE_IOC_DETACH ∧
    c.RACE_IOC_LIST ≠ c.RACE_IOC_DETACH ∧ c.RACE_IOC_LIST ≠ c.RACE_IOC_QUERY := by
  have h := c.distinct
  simp only [List.nodup_cons, List.mem_cons, List.mem_singleton, not_or, List.not_mem_nil,
    not_false_eq_true, List.nodup_nil, and_true] at h
  obtain ⟨⟨h1, h2, h3⟩, ⟨h4, h5⟩, h6⟩ := h
  exact ⟨Ne.symm h1, Ne.symm h2, Ne.symm h3, Ne.symm h4, Ne.symm h5, Ne.symm h6⟩

theorem race_ioctl_attach (c : RaceIoc) (data : Int) (l : Registry) :
    race_ioctl c c.RACE_IOC_ATTACH data l =
      { error := 0, data := race_new_unit l, list := race_new_unit l :: l, out := [] } := by
  simp [race_ioctl, race_new, race_new_insert]

theorem race_ioctl_detach (c : RaceIoc) (data : Int) (l : Registry) :
    race_ioctl c c.RACE_IOC_DETACH data l =
      match race_find data l with
      | none => { error := ENOENT, data := data, list := l, out := [] }
      | some sc => { error := 0, data := data, list := race_destroy sc l, out := [] } := by
  have h := codes_ne c
  simp [race_ioctl, h.1]

theorem race_ioctl_query (c : RaceIoc) (data : Int) (l : Registry) :
    race_ioctl c c.RACE_IOC_QUERY data l =
      match race_find data l with
      | none => { error := ENOENT, data := data, list := l, out := [] }
      | some _ => { error := 0, data := data, list := l, out := [] } := by
  have h := codes_ne c
  simp [race_ioctl, h.2.1, h.2.2.2.1]

theorem race_ioctl_list (c : RaceIoc) (data : Int) (l : Registry) :
    race_ioctl c c.RACE_IOC_LIST data l =
      { error := 0, data := data, list := l, out := Uprintf.header :: l.map Uprintf.unit } := by
  have h := codes_ne c
  simp [race_ioctl, h.2.2.1, h.2.2.2.2.1, h.2.2.2.2.2]

/-- Without INT_MAX in the list, and with the running maximum at least `-1`,
`max + 1` does not leave the `int` range. -/
theorem race_new_unit_eq (l : Registry) (hmax : ∀ u ∈ l, u < INT_MAX) :
    race_new_unit l = race_new_max (-1) l + 1 := by
  unfold race_new_unit
  apply wrapInt_eq_self
  · have := race_new_max_ge l (-1); omega
  · rcases race_new_max_mem l (-1) with e | e
    · rw [e]; decide
    · have := hmax _ e
      unfold INT_MAX at this; omega

/-- C1 (amended): for every registry state in which no id is INT_MAX and which,
unless empty, holds an id of at least -1 (so for every state whose ids lie in
0 .. INT_MAX - 1), the ATTACH command succeeds with the id `race_new` computes;
that id is 0 for the empty registry and otherwise one more than the largest
attached id; the list afterwards is the new id followed by the old list; and
any registry with the same attached ids, however it came about, gets the same
id. -/
theorem C1_attach_returns_max_plus_one (c : RaceIoc) (data : Int) (s : Registry)
    (hmax : ∀ u ∈ s, u < INT_MAX) (hmin : s ≠ [] → ∃ u ∈ s, -1 ≤ u) :
    (race_ioctl c c.RACE_IOC_ATTACH data s).error = 0 ∧
    (race_ioctl c c.RACE_IOC_ATTACH data s).data = (race_new s).1 ∧
    (s = [] → (race_ioctl c c.RACE_IOC_ATTACH data s).data = 0) ∧
    (s ≠ [] → (race_ioctl c c.RACE_IOC_ATTACH data s).data - 1 ∈ s ∧
      ∀ u ∈ s, u ≤ (race_ioctl c c.RACE_IOC_ATTACH data s).data - 1) ∧
    (race_ioctl c c.RACE_IOC_ATTACH data s).list =
      (race_ioctl c c.RACE_IOC_ATTACH data s).data :: s ∧
    (∀ t : Registry, (∀ u, u ∈ t ↔ u ∈ s) →
      (race_ioctl c c.RACE_IOC_ATTACH data t).data =
        (race_ioctl c c.RACE_IOC_ATTACH data s).data) := by
  refine ⟨by rw [race_ioctl_attach], by rw [race_ioctl_attach]; rfl, ?_, ?_,
    by rw [race_ioctl_attach], ?_⟩ <;> simp only [race_ioctl_attach]
  · intro hs; subst hs; decide
  · intro hs
    rw [race_new_unit_eq s hmax]
    obtain ⟨u, hu, hu1⟩ := hmin hs
    have hub := race_new_max_ub s (-1)
    refine ⟨?_, fun v hv => by have := hub v hv; omega⟩
    rcases race_new_max_mem s (-1) with e | e
    · have := hub u hu
      have hu2 : u = -1 := by omega
      rw [e]; simpa [hu2] using hu
    · simpa using e
  · intro t ht
    unfold race_new_unit
    rw [race_new_max_congr t s (-1) ht]

/-- C1 (witness): the amended statement at the registry `[1, 0]`. -/
theorem C1_attach_returns_max_plus_one_witness :
    (∀ u ∈ ([1, 0] : Registry), u < INT_MAX) ∧
    (([1, 0] : Registry) ≠ [] → ∃ u ∈ ([1, 0] : Registry), -1 ≤ u) ∧
    (race_ioctl raceIoc raceIoc.RACE_IOC_ATTACH 7 [1, 0]).error = 0 ∧
    (race_ioctl raceIoc raceIoc.RACE_IOC_ATTACH 7 [1, 0]).list =
      (race_ioctl raceIoc raceIoc.RACE_IOC_ATTACH 7 [1, 0]).data :: [1, 0] :=
  ⟨by decide, by decide,
    (C1_attach_returns_max_plus_one raceIoc 7 [1, 0] (by decide) (by decide)).1,
    (C1_attach_returns_max_plus_one raceIoc 7 [1, 0] (by decide) (by decide)).2.2.2.2.1⟩

/-- C1 (counterexample): with the single unit INT_MAX attached, ATTACH hands
back INT_MIN, which is not `max + 1`; with the single unit INT_MIN attached it
hands back 0, which is not `max + 1` either. -/
theorem C1_counterexample :
    (race_ioctl raceIoc raceIoc.RACE_IOC_ATTACH 0 [2147483647]).data = -2147483648 ∧
    (race_ioctl raceIoc raceIoc.RACE_IOC_ATTACH 0 [2147483647]).data ≠ 2147483647 + 1 ∧
    (race_ioctl raceIoc raceIoc.RACE_IOC_ATTACH 0 [-2147483648]).data = 0 ∧
    (race_ioctl raceIoc raceIoc.RACE_IOC_ATTACH 0 [-2147483648]).data ≠ -2147483648 + 1 := by
  decide

/-! ## Command sequences and distinct ids -/

theorem exec_append (c : RaceIoc) (rs rs2 : List Request) :
    ∀ l : Registry, exec c (rs ++ rs2) l = exec c rs2 (exec c rs l) := by
  induction rs with
  | nil => intro l; rfl
  | cons r rest ih => intro l; simp only [List.cons_append, exec]; exact ih _

/-- Every command but ATTACH leaves a sublist of the list it found. -/
theorem race_ioctl_sublist (c : RaceIoc) (cmd : Nat) (data : Int) (l : Registry)
    (h : cmd ≠ c.RACE_IOC_ATTACH) : (race_ioctl c cmd data l).list.Sublist l := by
  unfold race_ioctl
  simp only [h, if_false]
  split
  · split
    · exact List.Sublist.refl _
    · rename_i sc hsc
      obtain ⟨l1, l2, e1, _, e3⟩ := race_find_some data l sc hsc
      rw [e3]
      conv_rhs => rw [e1]
      exact List.Sublist.append (List.Sublist.refl _) (List.sublist_cons_self _ _)
  · split
    · split <;> exact List.Sublist.refl _
    · split <;> exact List.Sublist.refl _

/-- The id ATTACH picks is new whenever the ids are C `int` values that do not
include both INT_MAX and INT_MIN. -/
theorem race_new_unit_fresh (l : Registry)
    (hr : ∀ u ∈ l, INT_MIN ≤ u ∧ u ≤ INT_MAX) (hb : ¬ (INT_MAX ∈ l ∧ INT_MIN ∈ l)) :
    race_new_unit l ∉ l := by
  intro hmem
  have hub := race_new_max_ub l (-1)
  have hge := race_new_max_ge l (-1)
  have h1 := hub _ hmem
  unfold INT_MIN INT_MAX at hr hb
  rcases race_new_max_mem l (-1) with e | e
  · rw [race_new_unit, e] at h1
    rw [e] at hub
    have : wrapInt (-1 + 1) = 0 := by decide
    omega
  · have h2 := hr _ e
    by_cases hM : race_new_max (-1) l = 2147483647
    · have hnew : race_new_unit l = -2147483648 := by
        unfold race_new_unit; rw [hM]; decide
      rw [hM] at e
      rw [hnew] at hmem
      exact hb ⟨e, hmem⟩
    · have : race_new_unit l = race_new_max (-1) l + 1 := by
        unfold race_new_unit
        apply wrapInt_eq_self <;> omega
      omega

/-- One ATTACH keeps the ids distinct as long as at most `2^31` ATTACH commands
came before it, and keeps them inside `0 .. k` while `k + 1 <= 2^31`. -/
theorem attach_keeps_distinct (l : Registry) (k : Nat) (hk : k ≤ 2147483648)
    (hnd : l.Nodup) (hr : ∀ u ∈ l, 0 ≤ u ∧ u < (k : Int)) :
    (race_new_unit l :: l).Nodup ∧
    (k + 1 ≤ 2147483648 → ∀ u ∈ race_new_unit l :: l, 0 ≤ u ∧ u < ((k + 1 : Nat) : Int)) := by
  have hub := race_new_max_ub l (-1)
  have hge := race_new_max_ge l (-1)
  have hM : race_new_max (-1) l < (k : Int) := by
    rcases race_new_max_mem l (-1) with e | e
    · rw [e]; omega
    · exact (hr _ e).2
  constructor
  · refine List.nodup_cons.mpr ⟨?_, hnd⟩
    intro hmem
    have h1 := hub _ hmem
    have h2 := hr _ hmem
    unfold race_new_unit wrapInt at h1 h2
    omega
  · intro hk1 u hu
    rcases List.mem_cons.mp hu with e | e
    · subst e
      unfold race_new_unit wrapInt
      omega
    · have := hr u e
      omega

theorem attachCount_cons (c : RaceIoc) (r : Request) (rs : List Request) :
    attachCount c (r :: rs) =
      attachCount c rs + (if r.cmd = c.RACE_IOC_ATTACH then 1 else 0) := by
  unfold attachCount
  rw [List.countP_cons]
  simp

/-- Invariant of a command sequence holding at most `2^31 + 1` ATTACH commands:
the ids stay pairwise distinct, and they stay in `0 .. k - 1` while the number
`k` of ATTACH commands served is at most `2^31`. -/
theorem exec_keeps_distinct (c : RaceIoc) (rs : List Request) :
    ∀ (l : Registry) (k : Nat), l.Nodup →
      (k ≤ 2147483648 → ∀ u ∈ l, 0 ≤ u ∧ u < (k : Int)) →
      k + attachCount c rs ≤ 2147483649 →
      (exec c rs l).Nodup := by
  induction rs with
  | nil => intro l k hnd _ _; exact hnd
  | cons r rest ih =>
    intro l k hnd hr hk
    rw [attachCount_cons] at hk
    simp only [exec]
    by_cases hc : r.cmd = c.RACE_IOC_ATTACH
    · simp only [hc, if_true] at hk
      rw [hc, race_ioctl_attach]
      have hk0 : k ≤ 2147483648 := by omega
      obtain ⟨h1, h2⟩ := attach_keeps_distinct l k hk0 hnd (hr hk0)
      exact ih _ (k + 1) h1 h2 (by omega)
    · simp only [hc, if_false] at hk
      have hsub := race_ioctl_sublist c r.cmd r.data l hc
      exact ih _ k (hnd.sublist hsub) (fun h u hu => hr h u (hsub.subset hu)) hk

/-- Ids stay pairwise distinct along any command sequence that starts from the
empty registry and holds at most `2^31 + 1` ATTACH commands. -/
theorem exec_nodup (c : RaceIoc) (rs : List Request)
    (h : attachCount c rs ≤ 2147483649) : (exec c rs []).Nodup :=
  exec_keeps_distinct c rs [] 0 List.nodup_nil (fun _ u hu => by simp at hu) (by omega)

theorem attachCount_append (c : RaceIoc) (rs rs2 : List Request) :
    attachCount c (rs ++ rs2) = attachCount c rs + attachCount c rs2 := by
  unfold attachCount
  exact List.countP_append _ rs rs2

/-- Serving one more recognised command after a sequence with `k` ATTACH
commands. -/
theorem counted_step (c : RaceIoc) (l : Registry) (k : Nat) (cmd : Nat) (data : Int)
    (h : ∃ rs : List Request, (∀ r ∈ rs, Recognised c r.cmd) ∧
      attachCount c rs = k ∧ exec c rs [] = l)
    (hcmd : Recognised c cmd) :
    ∃ rs : List Request, (∀ r ∈ rs, Recognised c r.cmd) ∧
      attachCount c rs = k + (if cmd = c.RACE_IOC_ATTACH then 1 else 0) ∧
      exec c rs [] = (race_ioctl c cmd data l).list := by
  obtain ⟨rs, hrs, hk, he⟩ := h
  refine ⟨rs ++ [⟨cmd, data⟩], ?_, ?_, ?_⟩
  · intro r hr
    rcases List.mem_append.mp hr with h1 | h1
    · exact hrs r h1
    · simp only [List.mem_singleton] at h1; subst h1; exact hcmd
  · rw [attachCount_append, hk, attachCount_cons]
    simp [attachCount]
  · rw [exec_append, he]; rfl

/-- Every single-unit registry `[n]` with `0 <= n <= INT_MAX` is reached with
`n + 1` ATTACH commands: attach, then detach the older unit, over and over. -/
theorem counted_singleton (c : RaceIoc) (n : Nat) (hn : n ≤ 2147483647) :
    ∃ rs : List Request, (∀ r ∈ rs, Recognised c r.cmd) ∧
      attachCount c rs = n + 1 ∧ exec c rs [] = [(n : Int)] := by
  induction n with
  | zero =>
    have h := counted_step c [] 0 c.RACE_IOC_ATTACH 0 ⟨[], by simp, rfl, rfl⟩ (Or.inl rfl)
    rw [race_ioctl_attach] at h
    simpa using h
  | succ m ih =>
    have h1 := counted_step c _ _ c.RACE_IOC_ATTACH 0 (ih (by omega)) (Or.inl rfl)
    rw [race_ioctl_attach] at h1
    have hnew : race_new_unit [(m : Int)] = ((m + 1 : Nat) : Int) := by
      unfold race_new_unit race_new_max race_new_max wrapInt
      split <;> push_cast <;> omega
    simp only [hnew, if_true] at h1
    have h2 := counted_step c _ _ c.RACE_IOC_DETACH (m : Int) h1 (Or.inr (Or.inl rfl))
    rw [race_ioctl_detach] at h2
    have hf : race_find (m : Int) [((m + 1 : Nat) : Int), (m : Int)] = some 1 := by
      simp [race_find]
    rw [hf] at h2
    simpa [race_destroy, (codes_ne c).1] using h2

/-- A registry with INT_MIN attached twice is reached from the empty registry
by a command sequence with `2^31 + 2` ATTACH commands. -/
theorem counted_duplicate (c : RaceIoc) :
    ∃ rs : List Request, (∀ r ∈ rs, Recognised c r.cmd) ∧
      attachCount c rs = 2147483650 ∧
      exec c rs [] = [-2147483648, -2147483648, 2147483647] := by
  have h0 := counted_singleton c 2147483647 (le_refl _)
  have h1 := counted_step c _ _ c.RACE_IOC_ATTACH 0 h0 (Or.inl rfl)
  have h2 := counted_step c _ _ c.RACE_IOC_ATTACH 0 h1 (Or.inl rfl)
  simp only [race_ioctl_attach, if_true] at h2
  have e : (race_new_unit (race_new_unit [((2147483647 : Nat) : Int)] ::
      [((2147483647 : Nat) : Int)]) :: race_new_unit [((2147483647 : Nat) : Int)] ::
      [((2147483647 : Nat) : Int)]) = [-2147483648, -2147483648, 2147483647] := by
    decide
  rw [e] at h2
  exact h2

/-- A registry with a duplicated id is reachable from the empty registry. -/
theorem reachable_duplicate (c : RaceIoc) :
    Reachable c [-2147483648, -2147483648, 2147483647] := by
  obtain ⟨rs, hrs, _, he⟩ := counted_duplicate c
  exact ⟨rs, hrs, he⟩

/-- C4: DETACH of an id succeeds exactly when a unit with that id is attached;
on success the first unit carrying the id is unlinked and all other units keep
their order; when no unit has the id the command fails with ENOENT and the
registry is what it was.  The payload is never written. -/
theorem C4_detach (c : RaceIoc) (s : Registry) (id : Int) :
    ((race_ioctl c c.RACE_IOC_DETACH id s).error = 0 ↔ id ∈ s) ∧
    (id ∈ s → ∃ l1 l2, s = l1 ++ id :: l2 ∧ id ∉ l1 ∧
      (race_ioctl c c.RACE_IOC_DETACH id s).list = l1 ++ l2) ∧
    (id ∉ s → (race_ioctl c c.RACE_IOC_DETACH id s).error = ENOENT ∧
      (race_ioctl c c.RACE_IOC_DETACH id s).list = s) ∧
    (race_ioctl c c.RACE_IOC_DETACH id s).data = id := by
  rw [race_ioctl_detach]
  rcases hf : race_find id s with _ | sc
  · have hn : id ∉ s := (race_find_none id s).mp hf
    simp only [hn, false_implies, not_false_eq_true, true_implies, and_self, and_true, iff_false,
      true_and]
    decide
  · have hm : id ∈ s := by
      by_contra hn
      rw [(race_find_none id s).mpr hn] at hf
      cases hf
    obtain ⟨l1, l2, e1, e2, e3⟩ := race_find_some id s sc hf
    simp only [hm, true_implies, not_true_eq_false, false_implies, and_true, iff_true, true_and]
    exact ⟨l1, l2, e1, e2, e3⟩

/-- C4 (witness): both branches at the registry `[2, 1, 0]`, detaching 1 (which
is attached) and detaching 5 (which is not). -/
theorem C4_detach_witness :
    (∃ l1 l2, ([2, 1, 0] : Registry) = l1 ++ 1 :: l2 ∧ (1 : Int) ∉ l1 ∧
      (race_ioctl raceIoc raceIoc.RACE_IOC_DETACH 1 [2, 1, 0]).list = l1 ++ l2) ∧
    ((race_ioctl raceIoc raceIoc.RACE_IOC_DETACH 5 [2, 1, 0]).error = ENOENT ∧
      (race_ioctl raceIoc raceIoc.RACE_IOC_DETACH 5 [2, 1, 0]).list = [2, 1, 0]) :=
  ⟨(C4_detach raceIoc [2, 1, 0] 1).2.1 (by decide),
    (C4_detach raceIoc [2, 1, 0] 5).2.2.1 (by decide)⟩

/-- QUERY returns 0 exactly for the attached ids. -/
theorem query_ok_iff (c : RaceIoc) (s : Registry) (id : Int) :
    (race_ioctl c c.RACE_IOC_QUERY id s).error = 0 ↔ id ∈ s := by
  rw [race_ioctl_query]
  rcases hf : race_find id s with _ | sc
  · have hn : id ∉ s := (race_find_none id s).mp hf
    simp only [hn, iff_false]
    decide
  · have hm : id ∈ s := by
      by_contra hn
      rw [(race_find_none id s).mpr hn] at hf
      cases hf
    simp only [hm, iff_true]

/-- C6: QUERY of an id succeeds exactly when a unit with that id is attached
and fails with ENOENT otherwise; in both outcomes the registry after the query
is the registry before it, the payload is unchanged and nothing is printed. -/
theorem C6_query (c : RaceIoc) (s : Registry) (id : Int) :
    ((race_ioctl c c.RACE_IOC_QUERY id s).error = 0 ↔ id ∈ s) ∧
    ((race_ioctl c c.RACE_IOC_QUERY id s).error = ENOENT ↔ id ∉ s) ∧
    (race_ioctl c c.RACE_IOC_QUERY id s).list = s ∧
    (race_ioctl c c.RACE_IOC_QUERY id s).data = id ∧
    (race_ioctl c c.RACE_IOC_QUERY id s).out = [] := by
  rw [race_ioctl_query]
  rcases hf : race_find id s with _ | sc
  · have hn : id ∉ s := (race_find_none id s).mp hf
    simp only [hn, not_false_eq_true, iff_true, iff_false, and_self, and_true, true_and]
    decide
  · have hm : id ∈ s := by
      by_contra hn
      rw [(race_find_none id s).mpr hn] at hf
      cases hf
    simp only [hm, not_true_eq_false, iff_true, iff_false, and_self, and_true, true_and]
    decide

/-- C7: LIST succeeds, prints the header and then the attached ids from the head
of the list on (most recently attached first) and leaves the registry alone;
and for every registry state whose listing is `L`, after an ATTACH returning `A`
and an ATTACH returning `B` the listing is `B`, `A`, then `L`. -/
theorem C7_list_order (c : RaceIoc) (s : Registry) (d0 d1 d2 d3 : Int) :
    (race_ioctl c c.RACE_IOC_LIST d0 s).error = 0 ∧
    (race_ioctl c c.RACE_IOC_LIST d0 s).list = s ∧
    (race_ioctl c c.RACE_IOC_LIST d0 s).out = Uprintf.header :: s.map Uprintf.unit ∧
    (∀ L : List Int,
      (race_ioctl c c.RACE_IOC_LIST d0 s).out = Uprintf.header :: L.map Uprintf.unit →
      (race_ioctl c c.RACE_IOC_LIST d3
        (race_ioctl c c.RACE_IOC_ATTACH d2
          (race_ioctl c c.RACE_IOC_ATTACH d1 s).list).list).out =
        Uprintf.header ::
          ((race_ioctl c c.RACE_IOC_ATTACH d2
              (race_ioctl c c.RACE_IOC_ATTACH d1 s).list).data ::
            (race_ioctl c c.RACE_IOC_ATTACH d1 s).data :: L).map Uprintf.unit) := by
  refine ⟨by rw [race_ioctl_list], by rw [race_ioctl_list], by rw [race_ioctl_list], ?_⟩
  intro L hL
  simp only [race_ioctl_list, race_ioctl_attach, List.map_cons] at hL ⊢
  rw [List.cons.injEq] at hL
  rw [hL.2]

/-- C7 (witness): the listing of `[4, 2]` is `4, 2`; after two ATTACH commands
(returning 5, then 6) the listing is `6, 5, 4, 2`. -/
theorem C7_list_order_witness :
    (race_ioctl raceIoc raceIoc.RACE_IOC_LIST 0 [4, 2]).out =
      Uprintf.header :: ([4, 2] : List Int).map Uprintf.unit ∧
    (race_ioctl raceIoc raceIoc.RACE_IOC_LIST 0
        (race_ioctl raceIoc raceIoc.RACE_IOC_ATTACH 0
          (race_ioctl raceIoc raceIoc.RACE_IOC_ATTACH 0 [4, 2]).list).list).out =
      Uprintf.header ::
        ((race_ioctl raceIoc raceIoc.RACE_IOC_ATTACH 0
            (race_ioctl raceIoc raceIoc.RACE_IOC_ATTACH 0 [4, 2]).list).data ::
          (race_ioctl raceIoc raceIoc.RACE_IOC_ATTACH 0 [4, 2]).data ::
            ([4, 2] : List Int)).map Uprintf.unit :=
  ⟨by decide, (C7_list_order raceIoc [4, 2] 0 0 0 0).2.2.2 [4, 2] (by decide)⟩

/-- C8: with at least one unit attached the MOD_QUIESCE event (the request to
stop the driver) fails with EBUSY and leaves the driver state as it was, so a
QUERY for any attached unit still succeeds afterwards; with an empty registry
it returns 0, in particular once DETACH has removed the last unit. -/
theorem C8_quiesce_gate (c : RaceIoc) (st : RaceState) :
    (st.race_list ≠ [] →
      race_modevent MOD_QUIESCE st = (EBUSY, st) ∧
      ∀ id ∈ st.race_list,
        (race_ioctl c c.RACE_IOC_QUERY id
          (race_modevent MOD_QUIESCE st).2.race_list).error = 0) ∧
    (st.race_list = [] → race_modevent MOD_QUIESCE st = (0, st)) ∧
    (∀ id : Int, st.race_list = [id] →
      (race_ioctl c c.RACE_IOC_DETACH id st.race_list).error = 0 ∧
      (race_modevent MOD_QUIESCE
        { st with race_list := (race_ioctl c c.RACE_IOC_DETACH id st.race_list).list }).1
        = 0) := by
  have hq : ∀ t : RaceState, race_modevent MOD_QUIESCE t =
      (if t.race_list ≠ [] then EBUSY else 0, t) := by
    intro t
    have h1 : MOD_QUIESCE ≠ MOD_LOAD := by decide
    have h2 : MOD_QUIESCE ≠ MOD_UNLOAD := by decide
    simp [race_modevent, h1, h2]
  refine ⟨?_, ?_, ?_⟩
  · intro hne
    rw [hq]
    simp only [hne, ne_eq, not_false_eq_true, if_true, true_and]
    intro id hid
    exact (query_ok_iff c st.race_list id).mpr hid
  · intro he
    rw [hq]
    simp [he]
  · intro id he
    rw [hq, he, race_ioctl_detach]
    simp [race_find, race_destroy]

/-- C8 (witness): the three parts at the driver state whose registry is `[1]`
(the second part at the state whose registry is empty). -/
theorem C8_quiesce_gate_witness :
    (race_modevent MOD_QUIESCE { race_dev := true, race_list := [1] } =
        (EBUSY, { race_dev := true, race_list := [1] }) ∧
      ∀ id ∈ ([1] : Registry),
        (race_ioctl raceIoc raceIoc.RACE_IOC_QUERY id
          (race_modevent MOD_QUIESCE
            { race_dev := true, race_list := [1] }).2.race_list).error = 0) ∧
    race_modevent MOD_QUIESCE { race_dev := true, race_list := [] } =
      (0, { race_dev := true, race_list := [] }) ∧
    ((race_ioctl raceIoc raceIoc.RACE_IOC_DETACH 1 [1]).error = 0 ∧
      (race_modevent MOD_QUIESCE
        { race_dev := true,
          race_list := (race_ioctl raceIoc raceIoc.RACE_IOC_DETACH 1 [1]).list }).1 = 0) :=
  ⟨(C8_quiesce_gate raceIoc { race_dev := true, race_list := [1] }).1 (by decide),
    (C8_quiesce_gate raceIoc { race_dev := true, race_list := [] }).2.1 rfl,
    (C8_quiesce_gate raceIoc { race_dev := true, race_list := [1] }).2.2 1 rfl⟩

/-- C9: for every command code other than ATTACH, DETACH, QUERY and LIST, and
for every registry and payload, `race_ioctl` returns ENOTTY, leaves the
registry and the payload as they were and prints nothing. -/
theorem C9_unknown_command (c : RaceIoc) (cmd : Nat) (data : Int) (s : Registry)
    (h1 : cmd ≠ c.RACE_IOC_ATTACH) (h2 : cmd ≠ c.RACE_IOC_DETACH)
    (h3 : cmd ≠ c.RACE_IOC_QUERY) (h4 : cmd ≠ c.RACE_IOC_LIST) :
    race_ioctl c cmd data s = { error := ENOTTY, data := data, list := s, out := [] } := by
  simp [race_ioctl, h1, h2, h3, h4]

/-- C9 (witness): command code 0 on the registry `[1, 0]`. -/
theorem C9_unknown_command_witness :
    (0 ≠ raceIoc.RACE_IOC_ATTACH ∧ 0 ≠ raceIoc.RACE_IOC_DETACH ∧
      0 ≠ raceIoc.RACE_IOC_QUERY ∧ 0 ≠ raceIoc.RACE_IOC_LIST) ∧
    race_ioctl raceIoc 0 9 [1, 0] = { error := ENOTTY, data := 9, list := [1, 0], out := [] } :=
  ⟨by decide,
    C9_unknown_command raceIoc 0 9 [1, 0] (by decide) (by decide) (by decide) (by decide)⟩

/-! ## Attach calls one after another, and overlapping -/

theorem mem_countdown (k : Nat) (u : Int) :
    u ∈ ((List.range k).map Int.ofNat).reverse ↔ 0 ≤ u ∧ u < (k : Int) := by
  simp only [List.mem_reverse, List.mem_map, List.mem_range, Int.ofNat_eq_coe]
  constructor
  · rintro ⟨j, hj, rfl⟩; omega
  · rintro ⟨h0, h1⟩
    exact ⟨u.toNat, by omega, by omega⟩

/-- With the units `k - 1, ..., 0` attached the next id is `k`. -/
theorem race_new_unit_countdown (k : Nat) (hk : k ≤ 2147483647) :
    race_new_unit ((List.range k).map Int.ofNat).reverse = (k : Int) := by
  have hmax : ∀ u ∈ ((List.range k).map Int.ofNat).reverse, u < INT_MAX := by
    intro u hu
    have := (mem_countdown k u).mp hu
    unfold INT_MAX; omega
  rw [race_new_unit_eq _ hmax]
  have hge := race_new_max_ge ((List.range k).map Int.ofNat).reverse (-1)
  have hub := race_new_max_ub ((List.range k).map Int.ofNat).reverse (-1)
  rcases race_new_max_mem ((List.range k).map Int.ofNat).reverse (-1) with e | e
  · rcases Nat.eq_zero_or_pos k with h0 | hpos
    · subst h0; simp [race_new_max]
    · have := hub ((k : Int) - 1) ((mem_countdown k _).mpr (by omega))
      omega
  · have h1 := (mem_countdown k _).mp e
    have := hub ((k : Int) - 1) ((mem_countdown k _).mpr (by omega))
    omega

theorem attachMany_countdown (c : RaceIoc) (n : Nat) :
    ∀ k : Nat, k + n ≤ 2147483648 →
      attachMany c n ((List.range k).map Int.ofNat).reverse =
        ((List.range' k n).map Int.ofNat, ((List.range (k + n)).map Int.ofNat).reverse) := by
  induction n with
  | zero => intro k _; simp [attachMany]
  | succ m ih =>
    intro k hk
    simp only [attachMany, race_ioctl_attach]
    rw [race_new_unit_countdown k (by omega)]
    have hcd : ((k : Int) :: ((List.range k).map Int.ofNat).reverse) =
        ((List.range (k + 1)).map Int.ofNat).reverse := by
      simp [List.range_succ]
    rw [hcd, ih (k + 1) (by omega)]
    simp [List.range'_succ, Nat.add_assoc, Nat.add_comm 1 m]

/-- C3 (amended): `race_new` takes no lock, so only attach calls that do not
overlap are covered: `N <= 2^31` ATTACH commands served one after another
against an empty registry return `0, 1, ..., N - 1` in that order, without
duplicates or gaps, and leave those ids attached, newest first; and a caller
whose scan and insert run back to back performs exactly `race_new`. -/
theorem C3_serial_attach (c : RaceIoc) (n : Nat) (hn : n ≤ 2147483648) :
    attachMany c n [] =
      ((List.range n).map Int.ofNat, ((List.range n).map Int.ofNat).reverse) ∧
    (attachMany c n []).1.Nodup ∧
    (∀ (st : Overlap) (i : Nat), st.callers[i]? = some AttachPc.entry →
      stepCaller i (stepCaller i st) =
        { list := (race_new st.list).2
          callers := st.callers.set i (AttachPc.returned (race_new st.list).1) }) := by
  have h := attachMany_countdown c n 0 (by omega)
  simp only [List.range_zero, List.map_nil, List.reverse_nil, Nat.zero_add] at h
  rw [← List.range_eq_range'] at h
  refine ⟨h, ?_, ?_⟩
  · rw [h]
    refine (List.nodup_range n).map ?_
    intro a b hab
    exact Int.ofNat.inj hab
  · intro st i hi
    have hlt : i < st.callers.length := by
      rcases Nat.lt_or_ge i st.callers.length with h1 | h1
      · exact h1
      · rw [List.getElem?_eq_none h1] at hi; cases hi
    have h1 : stepCaller i st =
        { list := st.list
          callers := st.callers.set i (AttachPc.scanned (race_new_unit st.list)) } := by
      simp [stepCaller, hi]
    rw [h1]
    simp [stepCaller, hlt, race_new, List.getElem?_set_self]

/-- C3 (witness): three ATTACH commands in a row return 0, 1, 2. -/
theorem C3_serial_attach_witness :
    3 ≤ 2147483648 ∧ attachMany raceIoc 3 [] = ([0, 1, 2], [2, 1, 0]) :=
  ⟨by decide, (C3_serial_attach raceIoc 3 (by decide)).1⟩

/-- C3 (counterexample): two callers of ATTACH against the empty registry; each
scans before the other inserts (schedule 0, 1, 0, 1).  Both finish and both
are handed id 0, so the returned ids are not `0, 1`. -/
theorem C3_counterexample :
    runSchedule [0, 1, 0, 1] { list := [], callers := [AttachPc.entry, AttachPc.entry] } =
      { list := [0, 0], callers := [AttachPc.returned 0, AttachPc.returned 0] } ∧
    returnedIds (runSchedule [0, 1, 0, 1]
      { list := [], callers := [AttachPc.entry, AttachPc.entry] }) = [0, 0] ∧
    ¬ (returnedIds (runSchedule [0, 1, 0, 1]
      { list := [], callers := [AttachPc.entry, AttachPc.entry] })).Nodup := by
  decide

end Race

/-! # Properties of the `echo` driver -/

namespace Echo

theorem wrapLong_eq_self (x : Int) (h1 : -9223372036854775808 ≤ x)
    (h2 : x ≤ 9223372036854775807) : wrapLong x = x := by
  unfold wrapLong; omega

/-- A write at a non-negative offset keeps the bounds. -/
theorem echo_write_inv (uio : Uio) (uiomove_error : Int) (e : echo_t)
    (h : EchoInv e) (hoff : 0 ≤ uio.uio_offset) :
    EchoInv (echo_write uio uiomove_error e).2 := by
  obtain ⟨hb1, hb2, hl1, hl2⟩ := h
  have hr := uio.resid_range
  have ho := uio.offset_range
  have e1 : Race.wrapInt (e.buffer_size - 1) = e.buffer_size - 1 :=
    Race.wrapInt_eq_self _ (by omega) (by omega)
  have e2 : wrapLong (e.buffer_size - 1 - uio.uio_offset) =
      e.buffer_size - 1 - uio.uio_offset :=
    wrapLong_eq_self _ (by omega) (by omega)
  unfold echo_write
  simp only [e1, e2]
  split_ifs with c1 c2 c3 c4 c5 c6 c7 c8 <;>
    first
    | exact ⟨hb1, hb2, hl1, hl2⟩
    | (refine ⟨hb1, hb2, ?_, ?_⟩ <;>
        simp only [Race.wrapInt, wrapLong] at * <;> omega)

/-- A resize request keeps the bounds. -/
theorem echo_set_buffer_size_inv (size : Int) (e : echo_t) (h : EchoInv e) :
    EchoInv (echo_set_buffer_size size e).2 := by
  obtain ⟨hb1, hb2, hl1, hl2⟩ := h
  unfold echo_set_buffer_size
  dsimp only
  split_ifs with c1 c2 c3
  · exact ⟨hb1, hb2, hl1, hl2⟩
  · refine ⟨c2.1, c2.2, ?_, ?_⟩ <;> simp only [Race.wrapInt] <;> omega
  · exact ⟨c2.1, c2.2, hl1, by simp only; omega⟩
  · exact ⟨hb1, hb2, hl1, hl2⟩

/-- C10: if `128 <= buffer_size <= 512` and `0 <= length < buffer_size` hold,
they still hold after every `echo_write` at a non-negative offset (whatever
`uiomove` returns), after every ECHO_CLEAR_BUFFER request and after every
ECHO_SET_BUFFER_SIZE request, which is served by `echo_set_buffer_size`; a
requested size that differs from the current one and lies outside 128 .. 512
is rejected with EINVAL and leaves `buffer_size` and `length` as they were. -/
theorem C10_echo_bounds (e : echo_t) (h : EchoInv e) :
    (∀ (uio : Uio) (uiomove_error : Int), 0 ≤ uio.uio_offset →
      EchoInv (echo_write uio uiomove_error e).2) ∧
    (∀ data : Int, EchoInv (echo_ioctl ECHO_CLEAR_BUFFER data e).2) ∧
    (∀ size : Int, echo_ioctl ECHO_SET_BUFFER_SIZE size e = echo_set_buffer_size size e ∧
      EchoInv (echo_ioctl ECHO_SET_BUFFER_SIZE size e).2) ∧
    (∀ size : Int, size ≠ e.buffer_size → size < 128 ∨ 512 < size →
      echo_ioctl ECHO_SET_BUFFER_SIZE size e = (EINVAL, e)) := by
  have hcmd : ∀ size : Int,
      echo_ioctl ECHO_SET_BUFFER_SIZE size e = echo_set_buffer_size size e := by
    intro size
    have hne : ECHO_SET_BUFFER_SIZE ≠ ECHO_CLEAR_BUFFER := by decide
    simp [echo_ioctl, hne]
  refine ⟨fun uio err hoff => echo_write_inv uio err e h hoff, ?_, ?_, ?_⟩
  · intro data
    obtain ⟨hb1, hb2, _, _⟩ := h
    simp only [echo_ioctl, if_true]
    exact ⟨hb1, hb2, le_refl _, by simp only; omega⟩
  · intro size
    refine ⟨hcmd size, ?_⟩
    rw [hcmd]
    exact echo_set_buffer_size_inv size e h
  · intro size hne hout
    rw [hcmd]
    unfold echo_set_buffer_size
    have h1 : ¬ e.buffer_size = size := fun h2 => hne h2.symm
    have h2 : ¬ (size ≥ 128 ∧ size ≤ 512) := by omega
    simp only [h1, h2, if_false]

/-- C10 (witness): the driver state `buffer_size = 256`, `length = 3`; a write
of 10 bytes at offset 250, a clear, a resize to 128 and a rejected resize to
1000. -/
theorem C10_echo_bounds_witness :
    EchoInv { buffer_size := 256, length := 3 } ∧
    EchoInv (echo_write
      { uio_resid := 10, uio_offset := 250, resid_range := by decide, offset_range := by decide }
      0 { buffer_size := 256, length := 3 }).2 ∧
    EchoInv (echo_ioctl ECHO_CLEAR_BUFFER 0 { buffer_size := 256, length := 3 }).2 ∧
    EchoInv (echo_ioctl ECHO_SET_BUFFER_SIZE 128 { buffer_size := 256, length := 3 }).2 ∧
    echo_ioctl ECHO_SET_BUFFER_SIZE 1000 { buffer_size := 256, length := 3 } =
      (EINVAL, { buffer_size := 256, length := 3 }) :=
  ⟨by decide,
    (C10_echo_bounds { buffer_size := 256, length := 3 } (by decide)).1 _ 0 (by decide),
    (C10_echo_bounds { buffer_size := 256, length := 3 } (by decide)).2.1 0,
    ((C10_echo_bounds { buffer_size := 256, length := 3 } (by decide)).2.2.1 128).2,
    (C10_echo_bounds { buffer_size := 256, length := 3 } (by decide)).2.2.2 1000
      (by decide) (by decide)⟩

end Echo
